import Mathlib

/-!
Shallow embedding of the UserEdge2 administrative core
(`src/db_connector_pg.py` against its relational store, plus the
`domain_models.py` data model and the relevant presentation-layer guards).

The relational store is modelled as an explicit in-memory state
(`DbState`): a list of user rows, a list of edge rows and a list of
ownership-link rows, together with a counter standing for the store's
server-side id generation.  Each connector method of
`PostgresConnector` becomes a pure function on `DbState`, translated
statement by statement from the SQL it executes.  Wall-clock reads
(`datetime.now`) and bcrypt salt generation (`bcrypt.gensalt`) are the
only nondeterminism; they are made explicit parameters (`now`, `salt`).
-/

/-- Python truthiness of an `Optional[str]` argument: `None` and the
empty string are falsy, every other string is truthy.  This is the test
performed by `if new_password:` in `update_user` and by
`if owner_user_id:` in `set_edge_owner_id`. -/
def pyTruthy : Option String → Bool
  | none => false
  | some s => !(s == "")

/-- Python's `str.strip()` with no argument: remove whitespace from both
ends of the string (used on usernames, serial numbers and types before
persistence). -/
def pyStrip (s : String) : String :=
  String.mk
    (((s.data.dropWhile Char.isWhitespace).reverse.dropWhile
        Char.isWhitespace).reverse)

/-- Modelled from the spec: the Credential Hasher
(`bcrypt.hashpw(password, bcrypt.gensalt())` in the source; the bcrypt
library itself is not part of the repository).  Per the spec the hash
value is self-describing — it embeds the algorithm's cost factor and
the salt — and is a function of the plaintext and the salt.  The salt
drawn by `bcrypt.gensalt()` is an explicit parameter. -/
structure BcryptHash where
  cost : Nat
  salt : Nat
  digest : String
deriving Repr, DecidableEq

/-- Modelled from the spec: hashing a plaintext with a given salt.
The digest is a function of plaintext and salt, and the salt is
embedded in the output, as in bcrypt's `$2b$cost$saltdigest` format. -/
def bcrypt_hashpw (password : String) (salt : Nat) : BcryptHash :=
  { cost := 12, salt := salt, digest := password ++ "/" ++ toString salt }

/-- A row of `public.users` (columns per `domain_models.User.from_row`
and the INSERT in `create_user`). -/
structure UserRow where
  id : String
  username : String
  password_hash : BcryptHash
  roles : List String
  updated_at : Option Nat
  deleted_at : Option Nat
deriving Repr, DecidableEq

/-- A row of `public.edges` (columns per `domain_models.Edge.from_row`
and the INSERT in `create_edge`). -/
structure EdgeRow where
  id : String
  serial_number : String
  type : String
  updated_at : Option Nat
deriving Repr, DecidableEq

/-- A row of the `public.user_edge_link` ownership-link table. -/
structure LinkRow where
  user_id : String
  edge_id : String
deriving Repr, DecidableEq

/-- The relational store's state: the three tables and the counter
standing for server-side id generation (`RETURNING id`). -/
structure DbState where
  users : List UserRow
  edges : List EdgeRow
  links : List LinkRow
  nextId : Nat
deriving Repr, DecidableEq

/-- The empty store. -/
def emptyDb : DbState := { users := [], edges := [], links := [], nextId := 0 }

/-- Server-generated opaque id for the n-th created row. -/
def genId (n : Nat) : String := "id-" ++ toString n

/-- `get_all_users`: `SELECT * FROM public.users ORDER BY username`. -/
def get_all_users (s : DbState) : List UserRow :=
  s.users.mergeSort (fun a b => a.username ≤ b.username)

/-- `create_user(username, password, roles)`: hashes the password with a
fresh salt, inserts `(username.strip(), pw_hash, roles, now, None)` and
returns the generated id.  Note: the source performs no validation —
there is no emptiness check on `username` or `password` anywhere in
`PostgresConnector`. -/
def create_user (now salt : Nat) (username password : String)
    (roles : List String) (s : DbState) : String × DbState :=
  let pw_hash := bcrypt_hashpw password salt
  let uid := genId s.nextId
  (uid,
   { s with
      users := s.users ++
        [{ id := uid, username := pyStrip username, password_hash := pw_hash,
           roles := roles, updated_at := some now, deleted_at := none }],
      nextId := s.nextId + 1 })

/-- `update_user(user_id, username, roles, new_password)`: if
`new_password` is truthy, `UPDATE users SET username, roles,
password_hash WHERE id`; otherwise `UPDATE users SET username, roles
WHERE id`.  The SET list never touches `updated_at`, and the source
checks no row count and raises nothing when zero rows match. -/
def update_user (salt : Nat) (user_id username : String)
    (roles : List String) (new_password : Option String)
    (s : DbState) : DbState :=
  if pyTruthy new_password then
    let pw_hash := bcrypt_hashpw (new_password.getD "") salt
    { s with
        users := s.users.map fun u =>
          if u.id == user_id then
            { u with username := pyStrip username, roles := roles,
                     password_hash := pw_hash }
          else u }
  else
    { s with
        users := s.users.map fun u =>
          if u.id == user_id then
            { u with username := pyStrip username, roles := roles }
          else u }

/-- `soft_delete_user(user_id, delete)`:
`UPDATE users SET deleted_at=%s WHERE id=%s` with `now` when deleting,
NULL when undeleting. -/
def soft_delete_user (now : Nat) (user_id : String) (delete : Bool)
    (s : DbState) : DbState :=
  let deleted_at := if delete then some now else none
  { s with
      users := s.users.map fun u =>
        if u.id == user_id then { u with deleted_at := deleted_at } else u }

/-- `hard_delete_user(user_id)`: `DELETE FROM public.users WHERE id=%s`.
The removal of this user's ownership-link rows is modelled from the
spec: the link table's foreign keys cascade on delete from both parents
(§6 of the spec; the schema itself is not under `src/`). -/
def hard_delete_user (user_id : String) (s : DbState) : DbState :=
  { s with
      users := s.users.filter fun u => !(u.id == user_id),
      links := s.links.filter fun l => !(l.user_id == user_id) }

/-- `create_edge(serial_number, type_)`: inserts the trimmed fields and
returns the generated id.  `updated_at` is not in the INSERT column
list. -/
def create_edge (serial_number type_ : String) (s : DbState) :
    String × DbState :=
  let eid := genId s.nextId
  (eid,
   { s with
      edges := s.edges ++
        [{ id := eid, serial_number := pyStrip serial_number,
           type := pyStrip type_, updated_at := none }],
      nextId := s.nextId + 1 })

/-- `update_edge(edge_id, serial_number, type_)`:
`UPDATE edges SET serial_number, type WHERE id`.  No row-count check. -/
def update_edge (edge_id serial_number type_ : String)
    (s : DbState) : DbState :=
  { s with
      edges := s.edges.map fun e =>
        if e.id == edge_id then
          { e with serial_number := pyStrip serial_number, type := pyStrip type_ }
        else e }

/-- `hard_delete_edge(edge_id)`: `DELETE FROM public.edges WHERE id=%s`;
its docstring documents the link cascade: "Will cascade delete links
(FK ON DELETE CASCADE)". -/
def hard_delete_edge (edge_id : String) (s : DbState) : DbState :=
  { s with
      edges := s.edges.filter fun e => !(e.id == edge_id),
      links := s.links.filter fun l => !(l.edge_id == edge_id) }

/-- `get_edge_owner_id(edge_id)`:
`SELECT user_id FROM user_edge_link WHERE edge_id=%s LIMIT 1`, returning
the matched row's user id or None. -/
def get_edge_owner_id (edge_id : String) (s : DbState) : Option String :=
  (s.links.find? fun l => l.edge_id == edge_id).map (·.user_id)

/-- `set_edge_owner_id(edge_id, owner_user_id)`: inside one store
transaction, `DELETE FROM user_edge_link WHERE edge_id=%s`, then — only
when `owner_user_id` is truthy — `INSERT INTO user_edge_link (user_id,
edge_id) VALUES (%s, %s)`. -/
def set_edge_owner_id (edge_id : String) (owner_user_id : Option String)
    (s : DbState) : DbState :=
  let cleared := s.links.filter fun l => !(l.edge_id == edge_id)
  if pyTruthy owner_user_id then
    { s with links := cleared ++ [{ user_id := owner_user_id.getD "",
                                    edge_id := edge_id }] }
  else
    { s with links := cleared }

/-- `get_user_device_counts()`: `SELECT u.id, COUNT(l.edge_id) FROM
users u LEFT JOIN user_edge_link l ON l.user_id = u.id GROUP BY u.id` —
one pair per user row (ids are unique, so one group per user), counting
that user's link rows; users with no links appear with count 0. -/
def get_user_device_counts (s : DbState) : List (String × Nat) :=
  s.users.map fun u =>
    (u.id, (s.links.filter fun l => l.user_id == u.id).length)

/-- The guard in `UsersPage.open_add_dialog.save` (src/user_page.py):
`if not name.value or not pw.value:` refuses the save.  The guard
passes exactly when both raw input strings are truthy (non-empty before
any trimming). -/
def save_guard (name pw : String) : Bool :=
  !(name == "") && !(pw == "")

/-- Error kinds named by the spec's error-handling design.  The
connector source itself never constructs any of them (it contains no
raise statement and no row-count check). -/
inductive DbError where
  | notFound : DbError
  | validation : DbError
deriving Repr, DecidableEq

/-- `update_user` as it completes: the method body executes one UPDATE
and returns; there is no row-count inspection and no raise statement,
so with a healthy store it always returns normally. -/
def update_user_run (salt : Nat) (user_id username : String)
    (roles : List String) (new_password : Option String)
    (s : DbState) : Except DbError DbState :=
  Except.ok (update_user salt user_id username roles new_password s)

/-- `soft_delete_user` as it completes: no row-count check, no raise. -/
def soft_delete_user_run (now : Nat) (user_id : String) (delete : Bool)
    (s : DbState) : Except DbError DbState :=
  Except.ok (soft_delete_user now user_id delete s)

/-- `hard_delete_user` as it completes: no row-count check, no raise. -/
def hard_delete_user_run (user_id : String) (s : DbState) :
    Except DbError DbState :=
  Except.ok (hard_delete_user user_id s)

/-- `update_edge` as it completes: no row-count check, no raise. -/
def update_edge_run (edge_id serial_number type_ : String)
    (s : DbState) : Except DbError DbState :=
  Except.ok (update_edge edge_id serial_number type_ s)

/-- `hard_delete_edge` as it completes: no row-count check, no raise. -/
def hard_delete_edge_run (edge_id : String) (s : DbState) :
    Except DbError DbState :=
  Except.ok (hard_delete_edge edge_id s)

/-- One state-mutating call of the connector's public interface. -/
inductive Op where
  | createUser (now salt : Nat) (username password : String)
      (roles : List String)
  | updateUser (salt : Nat) (user_id username : String)
      (roles : List String) (new_password : Option String)
  | softDeleteUser (now : Nat) (user_id : String) (delete : Bool)
  | hardDeleteUser (user_id : String)
  | createEdge (serial_number type_ : String)
  | updateEdge (edge_id serial_number type_ : String)
  | hardDeleteEdge (edge_id : String)
  | setOwner (edge_id : String) (owner_user_id : Option String)
deriving Repr

/-- Effect of one connector call on the store. -/
def applyOp : Op → DbState → DbState
  | Op.createUser now salt u p r, s => (create_user now salt u p r s).2
  | Op.updateUser salt uid u r np, s => update_user salt uid u r np s
  | Op.softDeleteUser now uid d, s => soft_delete_user now uid d s
  | Op.hardDeleteUser uid, s => hard_delete_user uid s
  | Op.createEdge sn ty, s => (create_edge sn ty s).2
  | Op.updateEdge eid sn ty, s => update_edge eid sn ty s
  | Op.hardDeleteEdge eid, s => hard_delete_edge eid s
  | Op.setOwner eid o, s => set_edge_owner_id eid o s

/-- States reachable from the empty store through connector calls. -/
inductive Reachable : DbState → Prop
  | init : Reachable emptyDb
  | step {s : DbState} (op : Op) : Reachable s → Reachable (applyOp op s)

/-- The single-owner invariant: every edge id matches at most one
ownership-link row. -/
def SingleOwner (s : DbState) : Prop :=
  ∀ eid : String, (s.links.filter fun l => l.edge_id == eid).length ≤ 1

/-- Applying a sequence of `set_edge_owner_id` calls in order. -/
def applySetOwnerCalls (calls : List (String × Option String))
    (s : DbState) : DbState :=
  calls.foldl (fun st c => set_edge_owner_id c.1 c.2 st) s

/-- The argument of the most recent call in `calls` that targeted
`eid`, if any. -/
def lastOwnerCall (eid : String) (calls : List (String × Option String)) :
    Option (Option String) :=
  (calls.reverse.find? fun c => c.1 == eid).map (·.2)

/-- The owner a `set_edge_owner_id` call records: the argument itself
when truthy, otherwise no owner. -/
def truthyOwner (o : Option String) : Option String :=
  if pyTruthy o then o else none

/-- Rows removed by filtering with the complement of a test never pass
the test itself. -/
theorem filter_not_filter_eq_nil {α : Type} (p : α → Bool) (l : List α) :
    ((l.filter fun a => !(p a)).filter p) = [] := by
  apply List.filter_eq_nil_iff.mpr
  intro a ha
  have h2 := (List.mem_filter.mp ha).2
  simp only [Bool.not_eq_true'] at h2
  simp [h2]

/-- Filtering first can only shrink the number of rows matching any
other test. -/
theorem length_filter_filter_le {α : Type} (p q : α → Bool) (l : List α) :
    ((l.filter q).filter p).length ≤ (l.filter p).length := by
  induction l with
  | nil => simp
  | cons a t ih =>
    cases hq : q a <;> cases hp : p a <;>
      simp [List.filter_cons, hq, hp, -List.filter_filter] <;> omega

/-- Filtering out rows that cannot match the searched test leaves
`find?` unchanged. -/
theorem find?_filter_of_imp {α : Type} (p q : α → Bool) (l : List α)
    (h : ∀ a, p a = true → q a = true) :
    (l.filter q).find? p = l.find? p := by
  induction l with
  | nil => rfl
  | cons a t ih =>
    cases hq : q a
    case false =>
      have hp : p a = false := by
        cases hpa : p a
        · rfl
        · rw [h a hpa] at hq
          cases hq
      simp [List.filter_cons, hq, List.find?_cons, hp, ih]
    case true =>
      cases hp : p a <;> simp [List.filter_cons, hq, List.find?_cons, hp, ih]

/-- After `set_edge_owner_id` on an edge, reading the owner of that
same edge returns exactly the truthy owner just written. -/
theorem getOwner_setOwner_same (eid : String) (v : Option String)
    (s : DbState) :
    get_edge_owner_id eid (set_edge_owner_id eid v s) = truthyOwner v := by
  have hnone : (s.links.filter fun l => !(l.edge_id == eid)).find?
      (fun l => l.edge_id == eid) = none := by
    apply List.find?_eq_none.mpr
    intro x hx
    have hx2 := (List.mem_filter.mp hx).2
    simpa using hx2
  unfold get_edge_owner_id set_edge_owner_id truthyOwner
  cases hv : pyTruthy v
  · simp [hv, hnone]
  · cases v with
    | none => simp [pyTruthy] at hv
    | some p => simp [hv, List.find?_append, hnone, List.find?_cons]

/-- `set_edge_owner_id` on one edge does not change the owner read for
any other edge. -/
theorem getOwner_setOwner_other {e eid : String} (h : e ≠ eid)
    (v : Option String) (s : DbState) :
    get_edge_owner_id eid (set_edge_owner_id e v s) =
      get_edge_owner_id eid s := by
  have hfil : (s.links.filter fun l => !(l.edge_id == e)).find?
      (fun l => l.edge_id == eid) =
      s.links.find? (fun l => l.edge_id == eid) := by
    apply find?_filter_of_imp
    intro a ha
    have ha2 : a.edge_id = eid := by simpa using ha
    simp [ha2, Ne.symm h]
  have hne : (e == eid) = false := by simpa using h
  unfold get_edge_owner_id set_edge_owner_id
  cases hv : pyTruthy v
  · simp [hv, hfil]
  · simp [hv, List.find?_append, hfil, List.find?_cons, hne]

/-- The owner read after a sequence of `set_edge_owner_id` calls is
determined by the most recent call targeting that edge, falling back to
the starting state's owner when no call targeted it. -/
theorem getOwner_applyCalls (calls : List (String × Option String))
    (eid : String) (s : DbState) :
    get_edge_owner_id eid (applySetOwnerCalls calls s) =
      (lastOwnerCall eid calls).elim (get_edge_owner_id eid s)
        truthyOwner := by
  induction calls generalizing s with
  | nil => simp [applySetOwnerCalls, lastOwnerCall]
  | cons c rest ih =>
    have happ : applySetOwnerCalls (c :: rest) s =
        applySetOwnerCalls rest (set_edge_owner_id c.1 c.2 s) := rfl
    rw [happ, ih]
    unfold lastOwnerCall
    rw [List.reverse_cons, List.find?_append]
    cases hfind : rest.reverse.find? (fun x => x.1 == eid) with
    | some a => simp
    | none =>
      by_cases hc : c.1 = eid
      · subst hc
        simp [List.find?_cons, getOwner_setOwner_same]
      · have hne : (c.1 == eid) = false := by simpa using hc
        rw [getOwner_setOwner_other hc]
        simp [List.find?_cons, hne]

/-- C1: for every edge E and every sequence of `set_edge_owner_id`
calls applied to a state with no link rows for E, `get_edge_owner_id E`
returns exactly the account id passed in the most recent call targeting
E — null when that argument was null (or otherwise falsy) — and null
when no call ever targeted E; moreover each `set_edge_owner_id` call,
as one atomic step of the model, deletes all existing link rows for the
edge and inserts exactly one new row exactly when the new owner is
non-null. -/
theorem setOwner_getOwner_most_recent
    (calls : List (String × Option String)) (eid : String) (s : DbState)
    (h : ∀ l ∈ s.links, l.edge_id ≠ eid) :
    get_edge_owner_id eid (applySetOwnerCalls calls s) =
      (lastOwnerCall eid calls).elim none truthyOwner ∧
    ∀ (v : Option String) (s' : DbState),
      (set_edge_owner_id eid v s').links =
        (s'.links.filter fun l => !(l.edge_id == eid)) ++
          (if pyTruthy v then
            [{ user_id := v.getD "", edge_id := eid }] else []) := by
  constructor
  · have h0 : get_edge_owner_id eid s = none := by
      unfold get_edge_owner_id
      have : s.links.find? (fun l => l.edge_id == eid) = none := by
        apply List.find?_eq_none.mpr
        intro x hx
        simpa using h x hx
      rw [this]
      rfl
    rw [getOwner_applyCalls, h0]
  · intro v s'
    unfold set_edge_owner_id
    cases hv : pyTruthy v <;> simp [hv]

/-- Witness for C1 at a concrete call sequence from the empty store. -/
theorem setOwner_getOwner_most_recent_witness :
    get_edge_owner_id "e1"
      (applySetOwnerCalls
        [("e1", some "a"), ("e2", some "c"), ("e1", some "b")] emptyDb) =
      some "b" := by
  have h := setOwner_getOwner_most_recent
      [("e1", some "a"), ("e2", some "c"), ("e1", some "b")] "e1" emptyDb
      (by intro l hl; simp [emptyDb] at hl)
  rw [h.1]
  decide

/-- C10: passing the empty string (a falsy owner id) to
`set_edge_owner_id` behaves exactly like passing null: all link rows
for the edge are deleted, no new link is inserted, and the edge is left
unowned rather than linked to an empty-string account id. -/
theorem falsy_owner_clears_ownership (eid : String) (s : DbState) :
    set_edge_owner_id eid (some "") s = set_edge_owner_id eid none s ∧
    (set_edge_owner_id eid none s).links =
      (s.links.filter fun l => !(l.edge_id == eid)) ∧
    get_edge_owner_id eid (set_edge_owner_id eid (some "") s) = none := by
  refine ⟨rfl, rfl, ?_⟩
  rw [getOwner_setOwner_same]
  rfl

/-- C3 (code defect): the repository performs no validation.
`create_user` called with a whitespace-only username — which even
passes the UI dialog's save guard, since that guard only tests
untrimmed truthiness — and a non-empty password silently persists an
account whose username is empty after trimming, instead of failing
with a validation error.  No `ValidationError` (or any raise) exists in
`PostgresConnector`. -/
theorem create_user_persists_blank_username :
    save_guard "   " "pw" = true ∧
    (create_user 7 0 "   " "pw" [] emptyDb).2.users =
      [{ id := "id-0", username := "",
         password_hash := bcrypt_hashpw "pw" 0,
         roles := [], updated_at := some 7, deleted_at := none }] := by
  constructor
  · rfl
  · decide

/-- Each connector call preserves the single-owner invariant. -/
theorem singleOwner_applyOp (op : Op) {s : DbState} (h : SingleOwner s) :
    SingleOwner (applyOp op s) := by
  intro eid
  cases op with
  | createUser now salt u p r =>
    simpa [applyOp, create_user] using h eid
  | updateUser salt uid u r np =>
    have hl : (applyOp (Op.updateUser salt uid u r np) s).links = s.links := by
      simp only [applyOp]
      unfold update_user
      split <;> rfl
    rw [hl]
    exact h eid
  | softDeleteUser now uid d =>
    simpa [applyOp, soft_delete_user] using h eid
  | hardDeleteUser uid =>
    simp only [applyOp, hard_delete_user]
    exact (length_filter_filter_le _ _ _).trans (h eid)
  | createEdge sn ty =>
    simpa [applyOp, create_edge] using h eid
  | updateEdge eid2 sn ty =>
    simpa [applyOp, update_edge] using h eid
  | hardDeleteEdge eid2 =>
    simp only [applyOp, hard_delete_edge]
    exact (length_filter_filter_le _ _ _).trans (h eid)
  | setOwner e o =>
    simp only [applyOp, set_edge_owner_id]
    split
    · by_cases hc : e = eid
      · subst hc
        rw [List.filter_append, filter_not_filter_eq_nil]
        simp [List.filter_cons]
      · have hne : (e == eid) = false := by simpa using hc
        rw [List.filter_append]
        have h1 : (([{ user_id := o.getD "", edge_id := e }] :
            List LinkRow).filter fun l => l.edge_id == eid) = [] := by
          simp [List.filter_cons, hne]
        rw [h1, List.append_nil]
        exact (length_filter_filter_le _ _ _).trans (h eid)
    · exact (length_filter_filter_le _ _ _).trans (h eid)

/-- C2: every state reachable through the connector's operations from
the empty store satisfies the single-owner invariant — at most one
ownership-link row per edge id — and `set_edge_owner_id (E, A)`
followed immediately by `set_edge_owner_id (E, B)`, with A and B
distinct and non-null, leaves exactly one link row for E, owned by B. -/
theorem single_owner_invariant :
    (∀ s : DbState, Reachable s → SingleOwner s) ∧
    (∀ (s : DbState) (eid A B : String), A ≠ "" → B ≠ "" → A ≠ B →
      ((set_edge_owner_id eid (some B)
          (set_edge_owner_id eid (some A) s)).links.filter
        fun l => l.edge_id == eid) =
        [{ user_id := B, edge_id := eid }]) := by
  constructor
  · intro s hs
    induction hs with
    | init => intro eid; simp [emptyDb]
    | step op hr ih => exact singleOwner_applyOp op ih
  · intro s eid A B hA hB hAB
    have hBt : pyTruthy (some B) = true := by simp [pyTruthy, hB]
    simp only [set_edge_owner_id, hBt, if_true]
    rw [List.filter_append, filter_not_filter_eq_nil]
    simp [List.filter_cons]

/-- Witness for C2: a concrete reachable state satisfies the invariant,
and a concrete reassignment leaves exactly the second owner's row. -/
theorem single_owner_invariant_witness :
    SingleOwner (applyOp (Op.setOwner "e1" (some "a")) emptyDb) ∧
    ((set_edge_owner_id "e1" (some "b")
        (set_edge_owner_id "e1" (some "a") emptyDb)).links.filter
      fun l => l.edge_id == "e1") =
      [{ user_id := "b", edge_id := "e1" }] :=
  ⟨single_owner_invariant.1 _ (Reachable.step _ Reachable.init),
   single_owner_invariant.2 emptyDb "e1" "a" "b" (by decide) (by decide)
     (by decide)⟩

/-- Mapping a conditional rewrite over rows none of which match leaves
the table unchanged. -/
theorem map_ite_eq_self {α : Type} (l : List α) (p : α → Bool)
    (f : α → α) (h : ∀ a ∈ l, p a = false) :
    (l.map fun a => if p a then f a else a) = l := by
  have h1 : l.map (fun a => if p a then f a else a) = l.map id :=
    List.map_congr_left fun a ha => by simp [h a ha]
  simpa using h1

/-- C4 counterexample: create an account at time 5, then mutate it with
`update_user` (its username changes to "bob"); `updated_at` still holds
the creation time 5 — `update_user`'s SET list omits `updated_at`, and
the function reads no clock at all — so `updated_at` is not the
timestamp of the last mutation. -/
theorem update_user_keeps_updated_at_cex :
    ((update_user 1 "id-0" "bob" [] none
        (create_user 5 0 "alice" "pw" [] emptyDb).2).users.map
      fun u => (u.username, u.updated_at)) = [("bob", some 5)] := by
  decide

/-- C4 amended: `updated_at` is set to the current time on create, and
`update_user` leaves every row's `updated_at` unchanged — it records
creation time, not the time of the last mutation. -/
theorem updated_at_set_on_create_only :
    (∀ (now salt : Nat) (un pw : String) (r : List String) (s : DbState),
      ((create_user now salt un pw r s).2.users.map fun u => u.updated_at) =
        (s.users.map fun u => u.updated_at) ++ [some now]) ∧
    (∀ (salt : Nat) (uid un : String) (r : List String)
        (np : Option String) (s : DbState),
      ((update_user salt uid un r np s).users.map fun u => u.updated_at) =
        s.users.map fun u => u.updated_at) := by
  constructor
  · intro now salt un pw r s
    simp [create_user]
  · intro salt uid un r np s
    simp only [update_user]
    split <;>
    · simp only [List.map_map]
      apply List.map_congr_left
      intro a _
      by_cases h : a.id = uid <;> simp [h]

/-- C5 counterexample: updating a nonexistent account id against the
empty store matches zero rows, yet the call completes normally with the
store unchanged — there is no `NotFoundError`; the connector inspects
no row count and contains no raise statement. -/
theorem missing_id_returns_ok_cex :
    (emptyDb.users.filter fun u => u.id == "u0").length = 0 ∧
    update_user_run 0 "u0" "x" [] none emptyDb = Except.ok emptyDb :=
  ⟨rfl, rfl⟩

/-- C5 amended: every core mutation targeting a nonexistent id
(`update_user`, `soft_delete_user`, `hard_delete_user`, `update_edge`,
`hard_delete_edge`) is a silent no-op: it affects zero rows and returns
normally with the store unchanged, raising no `NotFoundError`.  (The
connector installs no exception handler either, so store-level errors
would propagate to the caller unswallowed.) -/
theorem missing_id_silent_noop (s : DbState) (uid eid : String)
    (hu : ∀ u ∈ s.users, u.id ≠ uid) (he : ∀ e ∈ s.edges, e.id ≠ eid)
    (hl : ∀ l ∈ s.links, l.user_id ≠ uid ∧ l.edge_id ≠ eid) :
    ∀ (salt now : Nat) (un : String) (r : List String)
      (np : Option String) (d : Bool) (sn ty : String),
      update_user_run salt uid un r np s = Except.ok s ∧
      soft_delete_user_run now uid d s = Except.ok s ∧
      hard_delete_user_run uid s = Except.ok s ∧
      update_edge_run eid sn ty s = Except.ok s ∧
      hard_delete_edge_run eid s = Except.ok s := by
  intro salt now un r np d sn ty
  have hu' : ∀ u ∈ s.users, (u.id == uid) = false := fun u h' => by
    simpa using hu u h'
  have he' : ∀ e ∈ s.edges, (e.id == eid) = false := fun e h' => by
    simpa using he e h'
  have hlu : ∀ l ∈ s.links, (!(l.user_id == uid)) = true := fun l h' => by
    simpa using (hl l h').1
  have hle : ∀ l ∈ s.links, (!(l.edge_id == eid)) = true := fun l h' => by
    simpa using (hl l h').2
  have hupd : update_user salt uid un r np s = s := by
    simp only [update_user]
    split <;> rw [map_ite_eq_self s.users _ _ hu']
  have hsoft : soft_delete_user now uid d s = s := by
    simp only [soft_delete_user]
    rw [map_ite_eq_self s.users _ _ hu']
  have hhardu : hard_delete_user uid s = s := by
    simp only [hard_delete_user]
    rw [List.filter_eq_self.mpr (fun u h' => by simpa using hu u h'),
        List.filter_eq_self.mpr hlu]
  have hupe : update_edge eid sn ty s = s := by
    simp only [update_edge]
    rw [map_ite_eq_self s.edges _ _ he']
  have hharde : hard_delete_edge eid s = s := by
    simp only [hard_delete_edge]
    rw [List.filter_eq_self.mpr (fun e h' => by simpa using he e h'),
        List.filter_eq_self.mpr hle]
  exact ⟨by simp [update_user_run, hupd], by simp [soft_delete_user_run, hsoft],
    by simp [hard_delete_user_run, hhardu], by simp [update_edge_run, hupe],
    by simp [hard_delete_edge_run, hharde]⟩

/-- A small populated store: one active account owning one edge. -/
def demoState : DbState :=
  { users := [{ id := "id-0", username := "alice",
                password_hash := bcrypt_hashpw "pw" 0, roles := ["admin"],
                updated_at := some 1, deleted_at := none }],
    edges := [{ id := "id-1", serial_number := "SN-1", type := "sensor",
                updated_at := none }],
    links := [{ user_id := "id-0", edge_id := "id-1" }],
    nextId := 2 }

/-- Witness for C5: on a populated store, all five mutations aimed at
the absent id "zz" return normally with the store unchanged. -/
theorem missing_id_silent_noop_witness :
    update_user_run 3 "zz" "x" [] none demoState = Except.ok demoState ∧
    soft_delete_user_run 4 "zz" true demoState = Except.ok demoState ∧
    hard_delete_user_run "zz" demoState = Except.ok demoState ∧
    update_edge_run "zz" "s" "t" demoState = Except.ok demoState ∧
    hard_delete_edge_run "zz" demoState = Except.ok demoState :=
  missing_id_silent_noop demoState "zz" "zz"
    (by decide) (by decide) (by decide) 3 4 "x" [] none true "s" "t"

/-- C6: `get_user_device_counts` keys are exactly the ids of all user
rows (no deleted-filter in the query, so soft-deleted accounts are
included), each user id is paired with the number of link rows for that
account, an account owning every link appears with the full count, and
an account owning none appears with count 0. -/
theorem device_counts_complete (s : DbState) (u : UserRow)
    (hu : u ∈ s.users) :
    ((get_user_device_counts s).map Prod.fst =
      s.users.map fun x => x.id) ∧
    (u.id, (s.links.filter fun l => l.user_id == u.id).length) ∈
      get_user_device_counts s ∧
    ((∀ l ∈ s.links, l.user_id = u.id) →
      (u.id, s.links.length) ∈ get_user_device_counts s) ∧
    ((∀ l ∈ s.links, l.user_id ≠ u.id) →
      (u.id, 0) ∈ get_user_device_counts s) := by
  refine ⟨?_, ?_, ?_, ?_⟩
  · simp [get_user_device_counts]
  · exact List.mem_map_of_mem _ hu
  · intro hall
    have hf : (s.links.filter fun l => l.user_id == u.id) = s.links :=
      List.filter_eq_self.mpr fun l h' => by simp [hall l h']
    have h2 := List.mem_map_of_mem
      (fun x : UserRow =>
        (x.id, (s.links.filter fun l => l.user_id == x.id).length)) hu
    simp only [] at h2
    rw [hf] at h2
    exact h2
  · intro hnone
    have hf : (s.links.filter fun l => l.user_id == u.id) = [] :=
      List.filter_eq_nil_iff.mpr fun l h' => by simpa using hnone l h'
    have h2 := List.mem_map_of_mem
      (fun x : UserRow =>
        (x.id, (s.links.filter fun l => l.user_id == x.id).length)) hu
    simp only [] at h2
    rw [hf] at h2
    exact h2

/-- A store with account "id-0" owning two edges and soft-deleted
account "id-1" owning none. -/
def demo6State : DbState :=
  { users :=
      [{ id := "id-0", username := "alice",
         password_hash := bcrypt_hashpw "pw" 0, roles := [],
         updated_at := some 1, deleted_at := none },
       { id := "id-1", username := "bob",
         password_hash := bcrypt_hashpw "pw" 1, roles := [],
         updated_at := some 1, deleted_at := some 2 }],
    edges := [],
    links := [{ user_id := "id-0", edge_id := "e1" },
              { user_id := "id-0", edge_id := "e2" }],
    nextId := 2 }

/-- Witness for C6: account "id-0" (two linked edges) is reported with
count 2 and the soft-deleted account "id-1" (no links) with count 0. -/
theorem device_counts_complete_witness :
    ("id-0", 2) ∈ get_user_device_counts demo6State ∧
    ("id-1", 0) ∈ get_user_device_counts demo6State := by
  constructor
  · have h2 := (device_counts_complete demo6State
      { id := "id-0", username := "alice",
        password_hash := bcrypt_hashpw "pw" 0, roles := [],
        updated_at := some 1, deleted_at := none } (by decide)).2.1
    have h2' : ("id-0",
        (demo6State.links.filter fun l => l.user_id == "id-0").length) ∈
        get_user_device_counts demo6State := h2
    have h3 : (demo6State.links.filter
        fun l => l.user_id == "id-0").length = 2 := by decide
    rw [h3] at h2'
    exact h2'
  · have h2 := (device_counts_complete demo6State
      { id := "id-1", username := "bob",
        password_hash := bcrypt_hashpw "pw" 1, roles := [],
        updated_at := some 1, deleted_at := some 2 } (by decide)).2.2.2
      (by decide)
    exact h2

/-- C7: `hard_delete_user` removes that account's ownership-link rows
(spec-modelled FK cascade from the users side) and leaves every edge
row unchanged; `hard_delete_edge` removes that edge's link rows (the
cascade its docstring documents) and leaves every account row
unchanged. -/
theorem hard_delete_frame (s : DbState) (uid eid : String) :
    (hard_delete_user uid s).edges = s.edges ∧
    (hard_delete_user uid s).links =
      (s.links.filter fun l => !(l.user_id == uid)) ∧
    (hard_delete_edge eid s).users = s.users ∧
    (hard_delete_edge eid s).links =
      (s.links.filter fun l => !(l.edge_id == eid)) :=
  ⟨rfl, rfl, rfl, rfl⟩

/-- C8: soft-deleting account A and then undeleting it leaves A's rows
with `deleted_at = null` again, and `get_all_users` lists A at every
point — while active, while soft-deleted (with the deletion timestamp),
and after undeletion. -/
theorem soft_delete_round_trip (s : DbState) (uid : String) (t t' : Nat)
    (u : UserRow) (hu : u ∈ s.users) (hid : u.id = uid) :
    (∃ u0 ∈ get_all_users s, u0.id = uid) ∧
    (∃ u1 ∈ get_all_users (soft_delete_user t uid true s),
        u1.id = uid ∧ u1.deleted_at = some t) ∧
    (∃ u2 ∈ get_all_users
        (soft_delete_user t' uid false (soft_delete_user t uid true s)),
        u2.id = uid ∧ u2.deleted_at = none) := by
  have hbeq : (u.id == uid) = true := by simp [hid]
  refine ⟨⟨u, ?_, hid⟩, ?_, ?_⟩
  · simp only [get_all_users, List.mem_mergeSort]
    exact hu
  · refine ⟨{ u with deleted_at := some t }, ?_, hid, rfl⟩
    simp only [get_all_users, List.mem_mergeSort, soft_delete_user]
    have h1 := List.mem_map_of_mem
      (fun x : UserRow =>
        if x.id == uid then { x with deleted_at := some t } else x) hu
    simpa [hbeq] using h1
  · refine ⟨{ u with deleted_at := none }, ?_, hid, rfl⟩
    simp only [get_all_users, List.mem_mergeSort, soft_delete_user]
    have h1 := List.mem_map_of_mem
      (fun x : UserRow =>
        if x.id == uid then { x with deleted_at := some t } else x) hu
    have h2 := List.mem_map_of_mem
      (fun x : UserRow =>
        if x.id == uid then { x with deleted_at := none } else x) h1
    simpa [hbeq] using h2

/-- Witness for C8: the round trip on a one-account store. -/
theorem soft_delete_round_trip_witness :
    (∃ u0 ∈ get_all_users demoState, u0.id = "id-0") ∧
    (∃ u1 ∈ get_all_users (soft_delete_user 5 "id-0" true demoState),
        u1.id = "id-0" ∧ u1.deleted_at = some 5) ∧
    (∃ u2 ∈ get_all_users
        (soft_delete_user 6 "id-0" false
          (soft_delete_user 5 "id-0" true demoState)),
        u2.id = "id-0" ∧ u2.deleted_at = none) :=
  soft_delete_round_trip demoState "id-0" 5 6
    { id := "id-0", username := "alice",
      password_hash := bcrypt_hashpw "pw" 0, roles := ["admin"],
      updated_at := some 1, deleted_at := none } (by decide) rfl

/-- C9 (hasher modelled from the spec, salt freshness expressed as the
distinct-salts hypothesis): hashing the same plaintext under two
different fresh salts yields different hash values; `create_user`
stores the hash of the supplied password under the salt drawn at that
call, and a truthy new password passed to `update_user` rehashes every
matching row under the salt drawn at that call — so creation followed
by a password update of the same plaintext stores two different hash
values. -/
theorem fresh_salt_distinct_hashes (pw : String) (salt1 salt2 : Nat)
    (hs : salt1 ≠ salt2) :
    bcrypt_hashpw pw salt1 ≠ bcrypt_hashpw pw salt2 ∧
    (∀ (now : Nat) (un : String) (r : List String) (s : DbState),
      ((create_user now salt1 un pw r s).2.users.map
          fun u => u.password_hash) =
        (s.users.map fun u => u.password_hash) ++
          [bcrypt_hashpw pw salt1]) ∧
    (∀ (uid un : String) (r : List String) (s : DbState), pw ≠ "" →
      ∀ x ∈ (update_user salt2 uid un r (some pw) s).users,
        x.id = uid → x.password_hash = bcrypt_hashpw pw salt2) := by
  refine ⟨?_, ?_, ?_⟩
  · intro hcontra
    exact hs (congrArg BcryptHash.salt hcontra)
  · intro now un r s
    simp [create_user]
  · intro uid un r s hp x hx hxid
    have ht : pyTruthy (some pw) = true := by simp [pyTruthy, hp]
    simp only [update_user, ht, if_true] at hx
    rcases List.mem_map.mp hx with ⟨a, ha, rfl⟩
    by_cases h : a.id = uid
    · simp [h]
    · have hne : (a.id == uid) = false := by simpa using h
      simp only [hne, Bool.false_eq_true, if_false] at hxid
      exact absurd hxid h

/-- Witness for C9: salts 0 and 1 hash "pw" to different values. -/
theorem fresh_salt_distinct_hashes_witness :
    bcrypt_hashpw "pw" 0 ≠ bcrypt_hashpw "pw" 1 :=
  (fresh_salt_distinct_hashes "pw" 0 1 (by decide)).1
